import Mathlib

/-!
Verification of `scripts/generate_filelist.py`, the filelist generator of the
HDVP repository.  The script scans a hardware-design project directory and
writes three artifacts into a job directory: `filelist.f` (compiler filelist),
`compile_options.txt` (include-directory options) and `project_metadata.json`.

We embed the script shallowly:

* the filesystem is an inductive tree of named entries (`Entry`/`Entries`);
* paths are lists of components (`List String`); rendering to a string joins
  components with `/`, as the POSIX path functions used by the script do;
* `os.walk` becomes `Entry.walk`, `os.path.exists`/lookup becomes `Entry.find`,
  `os.path.relpath` becomes `relpath`, Python's `str.endswith` becomes
  `endswith` (suffix test on the character data);
* file writes are modelled by returning the written lines and by threading the
  set of file names present in the job directory (so the later
  `os.path.exists(filelist_path)` check is a real lookup in the post-write
  state); `os.path.getctime` is an oracle parameter `ctime`;
* `main` becomes `pymain`, returning the exit code, what was printed and which
  outputs were produced.
-/

/-- Python `str.endswith ext`: the characters of `ext` are a suffix of the
characters of `s`. -/
def endswith (s ext : String) : Bool :=
  List.isSuffixOf ext.data s.data

/-- Render a component path the way `os.path.join` builds it: components
joined with `/`. -/
def renderPath : List String → String
  | [] => ""
  | [n] => n
  | n :: m :: rest => n ++ "/" ++ renderPath (m :: rest)

/-- Core of `os.path.relpath` on componentised paths: drop the longest common
prefix, then prepend one `..` for every remaining component of `start`. -/
def relpathAux : List String → List String → List String
  | p :: ps, s :: ss =>
    if p = s then relpathAux ps ss
    else List.replicate (ss.length + 1) ".." ++ (p :: ps)
  | ps, [] => ps
  | [], _ :: ss => List.replicate (ss.length + 1) ".."

/-- `os.path.relpath path start` rendered as a string (`.` when the paths are
equal). -/
def relpath (path start : List String) : String :=
  match relpathAux path start with
  | [] => "."
  | l => renderPath l

mutual
/-- A filesystem entry: a regular file, or a directory with a named list of
children (the list order is the traversal order `os.walk` uses). -/
inductive Entry : Type where
  | file : Entry
  | dir : Entries → Entry

/-- Named children of a directory. -/
inductive Entries : Type where
  | nil : Entries
  | cons : String → Entry → Entries → Entries
end

/-- Names of the direct regular files of a child list, in order. -/
def Entries.fileNames : Entries → List String
  | .nil => []
  | .cons n .file rest => n :: rest.fileNames
  | .cons _ (.dir _) rest => rest.fileNames

/-- Names of the direct subdirectories of a child list, in order. -/
def Entries.dirNames : Entries → List String
  | .nil => []
  | .cons _ .file rest => rest.dirNames
  | .cons n (.dir _) rest => n :: rest.dirNames

/-- Look up a direct child by name (first match, as a real directory has
distinct names). -/
def Entries.lookup : Entries → String → Option Entry
  | .nil, _ => none
  | .cons n e rest, m => if n = m then some e else rest.lookup m

/-- Resolve a component path inside an entry: the embedding of
`os.path.exists` (via `isSome`) and of locating the subtree a path denotes. -/
def Entry.find : Entry → List String → Option Entry
  | e, [] => some e
  | .file, _ :: _ => none
  | .dir cs, n :: ps =>
    match cs.lookup n with
    | some e => e.find ps
    | none => none

mutual
/-- Embedding of `os.walk` on the subtree `e` situated at path `p`: the
top-down list of frames `(root, dirnames, filenames)`.  Walking a regular file
yields nothing, as `os.walk` does. -/
def Entry.walk (p : List String) : Entry → List (List String × List String × List String)
  | .file => []
  | .dir cs => (p, cs.dirNames, cs.fileNames) :: Entries.walkChildren p cs

/-- Walk each subdirectory child in order. -/
def Entries.walkChildren (p : List String) : Entries → List (List String × List String × List String)
  | .nil => []
  | .cons n e rest =>
    (match e with
     | .dir cs => Entry.walk (p ++ [n]) (.dir cs)
     | .file => []) ++ Entries.walkChildren p rest
end

/-- Relativisation step of `scan_directory`: `os.path.relpath(file_path,
relative_to)` when a base is given (the `if relative_to:` branch), else the
joined path itself. -/
def applyRel : Option (List String) → List String → String
  | some base, fp => relpath fp base
  | none, fp => renderPath fp

/-- Inner loop of `scan_directory` over one `os.walk` frame: every file name of
the frame that ends with one of the extensions, joined to the frame's root and
rendered through `g`. -/
def scanFrame (extensions : List String) (g : List String → String)
    (frame : List String × List String × List String) : List String :=
  frame.2.2.filterMap fun filename =>
    if extensions.any (fun ext => endswith filename ext) then
      some (g (frame.1 ++ [filename]))
    else none

/-- Embedding of `scan_directory(directory, extensions, relative_to)` from the
script, run against the filesystem `fs`: if the directory does not exist
return `[]`; otherwise walk it and collect every file whose name ends with one
of the extensions, relativised against `relative_to` when given. -/
def scan_directory (fs : Entry) (directory : List String)
    (extensions : List String) (relative_to : Option (List String)) : List String :=
  match fs.find directory with
  | none => []
  | some e =>
    (e.walk directory).flatMap (scanFrame extensions (applyRel relative_to))

/-- Extensions treated as compilable verilog-family sources
(`verilog_extensions` in the script). -/
def verilog_extensions : List String := [".v", ".sv"]

/-- Extensions treated as include-family files (`include_extensions` in the
script). -/
def include_extensions : List String := [".vh", ".svh"]

/-- Python `set.add` on a deterministic list model of a string set: append the
element unless it is already present. -/
def setAdd (s : List String) (x : String) : List String :=
  if x ∈ s then s else s ++ [x]

/-- Python `sorted` on strings: stable sort by the code-point lexicographic
order (Lean's `≤` on `String` compares character lists exactly as Python
does). -/
def pysorted (l : List String) : List String :=
  l.insertionSort (· ≤ ·)

/-- The record serialised to `project_metadata.json`. -/
structure Metadata where
  project_path : String
  job_path : String
  src_files : List String
  tb_files : List String
  include_files : List String
  include_dirs : List String
  total_files : Nat
  generated_at : Option Nat
deriving DecidableEq

/-- Result of one `generate_filelist` run: the lines written to `filelist.f`
and to `compile_options.txt`, the metadata record, and the names of the files
present in the job directory afterwards. -/
structure GenOutput where
  filelist : List String
  compile_options : List String
  metadata : Metadata
  jobFilesAfter : List String
deriving DecidableEq

/-- Embedding of `generate_filelist(project_path, job_path)`.  `fs` is the
filesystem, `ctime` the creation timestamp the OS reports for the freshly
written `filelist.f`, and `jobFiles0` the file names already present in the
job directory before the run (writes are modelled by inserting the written
name, so the later `os.path.exists(filelist_path)` is a lookup in the
threaded state). -/
def generate_filelist (fs : Entry) (project_path job_path : List String)
    (ctime : Nat) (jobFiles0 : List String) : GenOutput :=
  let src_dir := project_path ++ ["src"]
  let src_files :=
    if (fs.find src_dir).isSome then
      scan_directory fs src_dir verilog_extensions (some job_path)
    else []
  let include_files :=
    if (fs.find src_dir).isSome then
      scan_directory fs src_dir include_extensions (some job_path)
    else []
  let tb_dir := project_path ++ ["tb"]
  let tb_files :=
    if (fs.find tb_dir).isSome then
      scan_directory fs tb_dir verilog_extensions (some job_path)
    else []
  let include_dir := project_path ++ ["include"]
  let include_files := include_files ++
    (if (fs.find include_dir).isSome then
      scan_directory fs include_dir include_extensions (some job_path)
    else [])
  let filelistLines := pysorted src_files ++ pysorted tb_files
  let jobFiles1 := setAdd jobFiles0 "filelist.f"
  let include_dirs :=
    match fs.find src_dir with
    | some e =>
      (e.walk src_dir).foldl
        (fun s frame =>
          if frame.2.2.any
              (fun f => include_extensions.any (fun ext => endswith f ext)) then
            setAdd s (relpath frame.1 job_path)
          else s)
        (setAdd [] (relpath src_dir job_path))
    | none => []
  let include_dirs :=
    if (fs.find include_dir).isSome then
      setAdd include_dirs (relpath include_dir job_path)
    else include_dirs
  let compileLines := (pysorted include_dirs).map (fun d => "+incdir+" ++ d)
  let jobFiles2 := setAdd jobFiles1 "compile_options.txt"
  let metadata : Metadata :=
    { project_path := renderPath project_path
      job_path := renderPath job_path
      src_files := src_files
      tb_files := tb_files
      include_files := include_files
      include_dirs := include_dirs
      total_files := src_files.length + tb_files.length
      generated_at :=
        if "filelist.f" ∈ jobFiles2 then some ctime else none }
  let jobFiles3 := setAdd jobFiles2 "project_metadata.json"
  { filelist := filelistLines
    compile_options := compileLines
    metadata := metadata
    jobFilesAfter := jobFiles3 }

/-- Observable outcome of one invocation of the script's `main`. -/
structure MainOutcome where
  exitCode : Nat
  printedUsage : Bool
  printedError : Bool
  outputs : Option GenOutput
  jobDirCreated : Bool
deriving DecidableEq

/-- Embedding of `main()`.  `argv` is `sys.argv` (program name included, so
exactly two positional arguments means `argv.length = 3`), `parsePath` turns
an argument string into a component path, and `ctime`/`jobFiles0` are passed
through to `generate_filelist`.  The argument-count check, the project-path
existence check and the conditional creation of the job directory follow the
source order. -/
def pymain (fs : Entry) (argv : List String) (parsePath : String → List String)
    (ctime : Nat) (jobFiles0 : List String) : MainOutcome :=
  if argv.length ≠ 3 then
    { exitCode := 1, printedUsage := true, printedError := false
      outputs := none, jobDirCreated := false }
  else
    let project_path := parsePath (argv.getD 1 "")
    let job_path := parsePath (argv.getD 2 "")
    if (fs.find project_path).isSome = false then
      { exitCode := 1, printedUsage := false, printedError := true
        outputs := none, jobDirCreated := false }
    else
      { exitCode := 0, printedUsage := false, printedError := false
        outputs := some (generate_filelist fs project_path job_path ctime jobFiles0)
        jobDirCreated := (fs.find job_path).isSome = false }

mutual
/-- Declarative enumeration of the files in the subtree at `p`, as component
paths, in the order `os.walk` reaches them: the direct files of a directory
first, then the files of each subdirectory in order. -/
def Entry.filesUnder (p : List String) : Entry → List (List String)
  | .file => []
  | .dir cs => cs.fileNames.map (fun n => p ++ [n]) ++ Entries.filesUnderChildren p cs

/-- Files contributed by a child list. -/
def Entries.filesUnderChildren (p : List String) : Entries → List (List String)
  | .nil => []
  | .cons _ .file rest => Entries.filesUnderChildren p rest
  | .cons n (.dir cs) rest =>
    Entry.filesUnder (p ++ [n]) (.dir cs) ++ Entries.filesUnderChildren p rest
end

mutual
/-- Declarative enumeration of the directories in the subtree at `p`, each
paired with the names of the files it directly contains. -/
def Entry.dirsUnder (p : List String) : Entry → List (List String × List String)
  | .file => []
  | .dir cs => (p, cs.fileNames) :: Entries.dirsUnderChildren p cs

/-- Directories contributed by a child list. -/
def Entries.dirsUnderChildren (p : List String) : Entries → List (List String × List String)
  | .nil => []
  | .cons _ .file rest => Entries.dirsUnderChildren p rest
  | .cons n (.dir cs) rest =>
    Entry.dirsUnder (p ++ [n]) (.dir cs) ++ Entries.dirsUnderChildren p rest
end

/-- A component path denotes a file whose name ends with one of the
extensions. -/
def matchesExt (extensions : List String) (fp : List String) : Bool :=
  match fp.getLast? with
  | some n => extensions.any (fun ext => endswith n ext)
  | none => false

/-- Specification-side description of what `scan_directory` discovers: the
files under `directory` whose names carry one of the extensions, as paths
relative to `base`.  Empty when the directory does not exist. -/
def discoveredFiles (fs : Entry) (directory : List String)
    (extensions : List String) (base : List String) : List String :=
  match fs.find directory with
  | some e =>
    ((e.filesUnder directory).filter (matchesExt extensions)).map
      (fun fp => relpath fp base)
  | none => []

/-- The example project of the specification: `src/a.v`, `src/b.sv`,
`src/pkg.svh`, `tb/top_tb.sv`, `include/defs.vh`, rooted at `proj`. -/
def demoFS : Entry :=
  .dir (.cons "proj" (.dir (
    .cons "src" (.dir (.cons "a.v" .file (.cons "b.sv" .file
      (.cons "pkg.svh" .file .nil))))
    (.cons "tb" (.dir (.cons "top_tb.sv" .file .nil))
    (.cons "include" (.dir (.cons "defs.vh" .file .nil)) .nil)))) .nil)

/-- The example project with the same `src` and `tb` trees as `demoFS` but no
`include` directory. -/
def demoFSNoInc : Entry :=
  .dir (.cons "proj" (.dir (
    .cons "src" (.dir (.cons "a.v" .file (.cons "b.sv" .file
      (.cons "pkg.svh" .file .nil))))
    (.cons "tb" (.dir (.cons "top_tb.sv" .file .nil)) .nil))) .nil)

/-- A project with a `src` directory only. -/
def demoFSSrcOnly : Entry :=
  .dir (.cons "proj" (.dir (
    .cons "src" (.dir (.cons "a.v" .file .nil)) .nil)) .nil)

theorem filterMap_names_eq (exts : List String) (g : List String → String)
    (p : List String) :
    ∀ fn : List String,
      (fn.filterMap fun filename =>
        if exts.any (fun ext => endswith filename ext) then
          some (g (p ++ [filename]))
        else none) =
      ((fn.map (fun n => p ++ [n])).filter (matchesExt exts)).map g
  | [] => rfl
  | n :: fn => by
    have h : matchesExt exts (p ++ [n]) = exts.any (fun ext => endswith n ext) := by
      simp [matchesExt, List.getLast?_concat]
    by_cases hb : exts.any (fun ext => endswith n ext) = true
    · simp only [List.filterMap_cons, List.map_cons, List.filter_cons, h, hb,
        if_pos, List.map_cons, filterMap_names_eq exts g p fn]
    · simp only [Bool.not_eq_true] at hb
      simp only [List.filterMap_cons, List.map_cons, List.filter_cons, h, hb,
        filterMap_names_eq exts g p fn]
      simp

mutual
theorem Entry.walk_scan_eq (exts : List String) (g : List String → String) :
    ∀ (p : List String) (e : Entry),
      (e.walk p).flatMap (scanFrame exts g) =
        ((e.filesUnder p).filter (matchesExt exts)).map g
  | _, .file => rfl
  | p, .dir cs => by
    rw [Entry.walk, Entry.filesUnder, List.flatMap_cons, List.filter_append,
      List.map_append, Entries.walkChildren_scan_eq exts g p cs]
    congr 1
    simpa [scanFrame] using filterMap_names_eq exts g p cs.fileNames

theorem Entries.walkChildren_scan_eq (exts : List String) (g : List String → String) :
    ∀ (p : List String) (cs : Entries),
      (Entries.walkChildren p cs).flatMap (scanFrame exts g) =
        ((Entries.filesUnderChildren p cs).filter (matchesExt exts)).map g
  | _, .nil => rfl
  | p, .cons n .file rest => by
    rw [Entries.walkChildren, Entries.filesUnderChildren]
    simpa using Entries.walkChildren_scan_eq exts g p rest
  | p, .cons n (.dir cs) rest => by
    rw [Entries.walkChildren, Entries.filesUnderChildren, List.flatMap_append,
      List.filter_append, List.map_append,
      Entry.walk_scan_eq exts g (p ++ [n]) (.dir cs),
      Entries.walkChildren_scan_eq exts g p rest]
end

/-- The scan equals its declarative description. -/
theorem scan_directory_eq_discoveredFiles (fs : Entry) (directory : List String)
    (exts : List String) (base : List String) :
    scan_directory fs directory exts (some base) = discoveredFiles fs directory exts base := by
  unfold scan_directory discoveredFiles
  cases fs.find directory with
  | none => rfl
  | some e => exact Entry.walk_scan_eq exts (applyRel (some base)) directory e

theorem relpathAux_spec :
    ∀ (path start : List String), ¬ path <+: start →
      ∃ k rest, relpathAux path start = List.replicate k ".." ++ rest ∧
        rest ≠ [] ∧ rest.getLast? = path.getLast?
  | p :: ps, s :: ss, h => by
    by_cases hps : p = s
    · subst hps
      have h' : ¬ ps <+: ss := fun hp => h (List.cons_prefix_cons.mpr ⟨rfl, hp⟩)
      obtain ⟨k, rest, heq, hne, hlast⟩ := relpathAux_spec ps ss h'
      have hpsne : ps ≠ [] := by
        rintro rfl; exact h' List.nil_prefix
      refine ⟨k, rest, ?_, hne, ?_⟩
      · simpa [relpathAux] using heq
      · rw [hlast]
        have : p :: ps = [p] ++ ps := rfl
        rw [this, List.getLast?_append_of_ne_nil _ hpsne]
    · exact ⟨ss.length + 1, p :: ps, by simp [relpathAux, hps], by simp, rfl⟩
  | ps, [], h => by
    have hne : ps ≠ [] := by rintro rfl; exact h List.nil_prefix
    obtain ⟨q, qs, rfl⟩ := List.exists_cons_of_ne_nil hne
    exact ⟨0, q :: qs, by simp [relpathAux], by simp, rfl⟩
  | [], s :: ss, h => absurd List.nil_prefix h

theorem renderPath_getLast_suffix :
    ∀ (l : List String) (n : String), l.getLast? = some n →
      n.data <:+ (renderPath l).data
  | [], n, h => by simp at h
  | [m], n, h => by
    simp only [List.getLast?_singleton, Option.some.injEq] at h
    subst h
    exact List.suffix_refl _
  | a :: b :: l, n, h => by
    rw [List.getLast?_cons_cons] at h
    obtain ⟨t, ht⟩ := renderPath_getLast_suffix (b :: l) n h
    exact ⟨(a ++ "/").data ++ t, by
      rw [renderPath, String.data_append, String.data_append, List.append_assoc, ht,
        String.data_append]⟩

theorem suffix_getLast? {α : Type} {a l : List α} (h : a <:+ l) (hne : a ≠ []) :
    l.getLast? = a.getLast? := by
  obtain ⟨t, rfl⟩ := h
  exact List.getLast?_append_of_ne_nil t hne

mutual
theorem Entry.filesUnder_shape :
    ∀ (p : List String) (e : Entry) (fp : List String), fp ∈ e.filesUnder p →
      ∃ rest, fp = p ++ rest ∧ rest ≠ []
  | p, .dir cs, fp, hm => by
    rw [Entry.filesUnder, List.mem_append] at hm
    rcases hm with hm | hm
    · obtain ⟨n, _, rfl⟩ := List.mem_map.mp hm
      exact ⟨[n], rfl, by simp⟩
    · exact Entries.filesUnderChildren_shape p cs fp hm

theorem Entries.filesUnderChildren_shape :
    ∀ (p : List String) (cs : Entries) (fp : List String),
      fp ∈ Entries.filesUnderChildren p cs →
      ∃ rest, fp = p ++ rest ∧ rest ≠ []
  | p, .cons _ .file rest, fp, hm => by
    rw [Entries.filesUnderChildren] at hm
    exact Entries.filesUnderChildren_shape p rest fp hm
  | p, .cons n (.dir cs) rest, fp, hm => by
    rw [Entries.filesUnderChildren, List.mem_append] at hm
    rcases hm with hm | hm
    · obtain ⟨r, hr, hrne⟩ := Entry.filesUnder_shape (p ++ [n]) (.dir cs) fp hm
      exact ⟨n :: r, by simpa using hr, by simp⟩
    · exact Entries.filesUnderChildren_shape p rest fp hm
end

theorem guarded_scan_eq (fs : Entry) (d : List String) (exts jp : List String) :
    (if (fs.find d).isSome then scan_directory fs d exts (some jp) else []) =
      discoveredFiles fs d exts jp := by
  by_cases hf : (fs.find d).isSome
  · rw [if_pos hf, scan_directory_eq_discoveredFiles]
  · rw [if_neg hf]
    unfold discoveredFiles
    cases hfind : fs.find d with
    | none => rfl
    | some e => rw [hfind] at hf; simp at hf

theorem discoveredFiles_verilog_last (fs : Entry) (dir jp : List String)
    (h : ¬ dir <+: jp) {line : String}
    (hline : line ∈ discoveredFiles fs dir verilog_extensions jp) :
    line.data.getLast? = some 'v' := by
  unfold discoveredFiles at hline
  cases hfind : fs.find dir with
  | none => rw [hfind] at hline; simp at hline
  | some e =>
    rw [hfind] at hline
    obtain ⟨fp, hfp, rfl⟩ := List.mem_map.mp hline
    rw [List.mem_filter] at hfp
    obtain ⟨hfpmem, hmx⟩ := hfp
    unfold matchesExt at hmx
    cases hlast : fp.getLast? with
    | none => rw [hlast] at hmx; simp at hmx
    | some n =>
      rw [hlast] at hmx
      have hv : n.data.getLast? = some 'v' := by
        simp only [verilog_extensions, List.any_cons, List.any_nil,
          Bool.or_false, Bool.or_eq_true] at hmx
        rcases hmx with h1 | h1 <;>
        · unfold endswith at h1
          have hs := List.isSuffixOf_iff_suffix.mp h1
          rw [suffix_getLast? hs (by decide)]
          decide
      obtain ⟨rest, rfl, hrne⟩ := Entry.filesUnder_shape _ e fp hfpmem
      have hnf : ¬ (dir ++ rest) <+: jp := fun hpre =>
        h ((List.prefix_append dir rest).trans hpre)
      obtain ⟨k, rest', heq, hne', hlast'⟩ := relpathAux_spec _ jp hnf
      have hrel : relpath (dir ++ rest) jp =
          renderPath (List.replicate k ".." ++ rest') := by
        unfold relpath
        rw [heq]
        cases hk : List.replicate k ".." ++ rest' with
        | nil => exact absurd (List.append_eq_nil.mp hk).2 hne'
        | cons x xs => rfl
      have hfull : (List.replicate k ".." ++ rest').getLast? = some n := by
        rw [List.getLast?_append_of_ne_nil _ hne', hlast', hlast]
      have hsfx := renderPath_getLast_suffix _ n hfull
      have hndne : n.data ≠ [] := by
        intro h0; rw [h0] at hv; simp at hv
      rw [hrel, suffix_getLast? hsfx hndne, hv]

theorem not_endswith_of_getLast_v {line : String}
    (hv : line.data.getLast? = some 'v') (ext : String)
    (hext : ext.data.getLast? = some 'h') : endswith line ext = false := by
  by_contra hc
  rw [Bool.not_eq_false] at hc
  unfold endswith at hc
  have hs := List.isSuffixOf_iff_suffix.mp hc
  have hne : ext.data ≠ [] := by intro h0; rw [h0] at hext; simp at hext
  rw [suffix_getLast? hs hne, hext] at hv
  exact absurd hv (by decide)

/-- C1: `filelist.f` contains exactly the discovered `src` verilog-family
files (suffix `.v` or `.sv`) sorted lexicographically, followed by the
discovered `tb` verilog-family files sorted lexicographically, and no
include-family file (suffix `.vh` or `.svh`) appears in it.  The hypotheses
say the job directory does not lie inside `projectPath/src` or
`projectPath/tb`. -/
theorem C1_filelist_exact (fs : Entry) (pp jp : List String) (ctime : Nat)
    (jobFiles0 : List String)
    (hsrc : ¬ (pp ++ ["src"]) <+: jp) (htb : ¬ (pp ++ ["tb"]) <+: jp) :
    (generate_filelist fs pp jp ctime jobFiles0).filelist =
      pysorted (discoveredFiles fs (pp ++ ["src"]) verilog_extensions jp) ++
        pysorted (discoveredFiles fs (pp ++ ["tb"]) verilog_extensions jp) ∧
    ∀ line ∈ (generate_filelist fs pp jp ctime jobFiles0).filelist,
      endswith line ".vh" = false ∧ endswith line ".svh" = false := by
  have hmain : (generate_filelist fs pp jp ctime jobFiles0).filelist =
      pysorted (discoveredFiles fs (pp ++ ["src"]) verilog_extensions jp) ++
        pysorted (discoveredFiles fs (pp ++ ["tb"]) verilog_extensions jp) := by
    simp only [generate_filelist]
    rw [guarded_scan_eq, guarded_scan_eq]
  refine ⟨hmain, ?_⟩
  intro line hline
  rw [hmain, List.mem_append, pysorted, pysorted,
    List.mem_insertionSort, List.mem_insertionSort] at hline
  have hv : line.data.getLast? = some 'v' := by
    rcases hline with hline | hline
    · exact discoveredFiles_verilog_last fs (pp ++ ["src"]) jp hsrc hline
    · exact discoveredFiles_verilog_last fs (pp ++ ["tb"]) jp htb hline
  exact ⟨not_endswith_of_getLast_v hv ".vh" (by decide),
    not_endswith_of_getLast_v hv ".svh" (by decide)⟩

/-- Witness for C1 on the specification's example project. -/
theorem C1_filelist_exact_witness :
    (generate_filelist demoFS ["proj"] ["proj", "job"] 0 []).filelist =
      pysorted (discoveredFiles demoFS (["proj"] ++ ["src"]) verilog_extensions
          ["proj", "job"]) ++
        pysorted (discoveredFiles demoFS (["proj"] ++ ["tb"]) verilog_extensions
          ["proj", "job"]) ∧
    ∀ line ∈ (generate_filelist demoFS ["proj"] ["proj", "job"] 0 []).filelist,
      endswith line ".vh" = false ∧ endswith line ".svh" = false :=
  C1_filelist_exact demoFS ["proj"] ["proj", "job"] 0 [] (by decide) (by decide)

theorem mem_setAdd {s : List String} {x d : String} :
    d ∈ setAdd s x ↔ d ∈ s ∨ d = x := by
  unfold setAdd
  split
  · next hx =>
    constructor
    · exact Or.inl
    · rintro (h | rfl)
      · exact h
      · exact hx
  · simp

theorem setAdd_nodup {s : List String} {x : String} (h : s.Nodup) :
    (setAdd s x).Nodup := by
  unfold setAdd
  split
  · exact h
  · next hx => exact List.Nodup.append h (List.nodup_singleton x) (by simpa using hx)

theorem mem_foldl_setAdd {α : Type} (P : α → Bool) (g : α → String) :
    ∀ (l : List α) (s : List String) (d : String),
      d ∈ l.foldl (fun acc fr => if P fr then setAdd acc (g fr) else acc) s ↔
        d ∈ s ∨ ∃ fr, fr ∈ l ∧ P fr = true ∧ d = g fr
  | [], s, d => by simp
  | a :: l, s, d => by
    rw [List.foldl_cons, mem_foldl_setAdd P g l _ d]
    by_cases hP : P a = true
    · rw [if_pos hP, mem_setAdd]
      constructor
      · rintro ((h | rfl) | h)
        · exact Or.inl h
        · exact Or.inr ⟨a, by simp, hP, rfl⟩
        · obtain ⟨fr, hfr, hp, rfl⟩ := h
          exact Or.inr ⟨fr, by simp [hfr], hp, rfl⟩
      · rintro (h | ⟨fr, hfr, hp, rfl⟩)
        · exact Or.inl (Or.inl h)
        · rcases List.mem_cons.mp hfr with rfl | hfr
          · exact Or.inl (Or.inr rfl)
          · exact Or.inr ⟨fr, hfr, hp, rfl⟩
    · rw [if_neg hP]
      constructor
      · rintro (h | ⟨fr, hfr, hp, rfl⟩)
        · exact Or.inl h
        · exact Or.inr ⟨fr, by simp [hfr], hp, rfl⟩
      · rintro (h | ⟨fr, hfr, hp, rfl⟩)
        · exact Or.inl h
        · rcases List.mem_cons.mp hfr with rfl | hfr
          · exact absurd hp hP
          · exact Or.inr ⟨fr, hfr, hp, rfl⟩

theorem foldl_setAdd_nodup {α : Type} (P : α → Bool) (g : α → String) :
    ∀ (l : List α) (s : List String), s.Nodup →
      (l.foldl (fun acc fr => if P fr then setAdd acc (g fr) else acc) s).Nodup
  | [], _, h => h
  | a :: l, s, h => by
    rw [List.foldl_cons]
    refine foldl_setAdd_nodup P g l _ ?_
    split
    · exact setAdd_nodup h
    · exact h

mutual
theorem Entry.walk_dirs_eq :
    ∀ (p : List String) (e : Entry),
      (e.walk p).map (fun fr => (fr.1, fr.2.2)) = e.dirsUnder p
  | _, .file => rfl
  | p, .dir cs => by
    rw [Entry.walk, Entry.dirsUnder, List.map_cons, Entries.walkChildren_dirs_eq p cs]

theorem Entries.walkChildren_dirs_eq :
    ∀ (p : List String) (cs : Entries),
      (Entries.walkChildren p cs).map (fun fr => (fr.1, fr.2.2)) =
        Entries.dirsUnderChildren p cs
  | _, .nil => rfl
  | p, .cons n .file rest => by
    rw [Entries.walkChildren, Entries.dirsUnderChildren]
    simpa using Entries.walkChildren_dirs_eq p rest
  | p, .cons n (.dir cs) rest => by
    rw [Entries.walkChildren, Entries.dirsUnderChildren, List.map_append,
      Entry.walk_dirs_eq (p ++ [n]) (.dir cs), Entries.walkChildren_dirs_eq p rest]
end

theorem exists_walk_iff_dirsUnder (e : Entry) (p jp : List String) (d : String) :
    (∃ frame, frame ∈ e.walk p ∧
        frame.2.2.any (fun f => include_extensions.any (fun ext => endswith f ext)) = true ∧
        d = relpath frame.1 jp) ↔
      ∃ fr, fr ∈ e.dirsUnder p ∧
        fr.2.any (fun f => include_extensions.any (fun ext => endswith f ext)) = true ∧
        d = relpath fr.1 jp := by
  rw [← Entry.walk_dirs_eq]
  constructor
  · rintro ⟨frame, hm, hp, rfl⟩
    exact ⟨(frame.1, frame.2.2), List.mem_map.mpr ⟨frame, hm, rfl⟩, hp, rfl⟩
  · rintro ⟨fr, hm, hp, rfl⟩
    obtain ⟨frame, hfm, rfl⟩ := List.mem_map.mp hm
    exact ⟨frame, hfm, hp, rfl⟩

theorem mem_include_dirs (fs : Entry) (pp jp : List String) (ctime : Nat)
    (jobFiles0 : List String) (d : String) :
    d ∈ (generate_filelist fs pp jp ctime jobFiles0).metadata.include_dirs ↔
      ((fs.find (pp ++ ["src"])).isSome ∧ d = relpath (pp ++ ["src"]) jp) ∨
      (∃ e, fs.find (pp ++ ["src"]) = some e ∧
        ∃ fr, fr ∈ e.dirsUnder (pp ++ ["src"]) ∧
          fr.2.any (fun f => include_extensions.any (fun ext => endswith f ext)) = true ∧
          d = relpath fr.1 jp) ∨
      ((fs.find (pp ++ ["include"])).isSome ∧ d = relpath (pp ++ ["include"]) jp) := by
  simp only [generate_filelist]
  cases hsrc : fs.find (pp ++ ["src"]) with
  | none =>
    by_cases hinc : (fs.find (pp ++ ["include"])).isSome
    · rw [if_pos hinc]
      simp [mem_setAdd, hinc]
    · rw [if_neg hinc]
      simp [hinc]
  | some e =>
    by_cases hinc : (fs.find (pp ++ ["include"])).isSome
    · rw [if_pos hinc, mem_setAdd, mem_foldl_setAdd, mem_setAdd]
      simp only [List.not_mem_nil, false_or, exists_walk_iff_dirsUnder,
        Option.isSome_some, Option.some.injEq, eq_self_iff_true, true_and]
      constructor
      · rintro ((rfl | h) | rfl)
        · exact Or.inl rfl
        · exact Or.inr (Or.inl ⟨e, rfl, h⟩)
        · exact Or.inr (Or.inr ⟨hinc, rfl⟩)
      · rintro (rfl | ⟨e', rfl, h⟩ | ⟨-, rfl⟩)
        · exact Or.inl (Or.inl rfl)
        · exact Or.inl (Or.inr h)
        · exact Or.inr rfl
    · rw [if_neg hinc, mem_foldl_setAdd, mem_setAdd]
      rw [Bool.not_eq_true] at hinc
      simp only [List.not_mem_nil, false_or, exists_walk_iff_dirsUnder,
        Option.isSome_some, Option.some.injEq, eq_self_iff_true, true_and, hinc,
        Bool.false_eq_true, false_and, or_false]
      constructor
      · rintro (rfl | h)
        · exact Or.inl rfl
        · exact Or.inr ⟨e, rfl, h⟩
      · rintro (rfl | ⟨e', rfl, h⟩)
        · exact Or.inl rfl
        · exact Or.inr h

theorem include_dirs_nodup (fs : Entry) (pp jp : List String) (ctime : Nat)
    (jobFiles0 : List String) :
    (generate_filelist fs pp jp ctime jobFiles0).metadata.include_dirs.Nodup := by
  simp only [generate_filelist]
  cases hsrc : fs.find (pp ++ ["src"]) with
  | none =>
    split
    · exact setAdd_nodup List.nodup_nil
    · exact List.nodup_nil
  | some e =>
    split
    · exact setAdd_nodup (foldl_setAdd_nodup _ _ _ _ (setAdd_nodup List.nodup_nil))
    · exact foldl_setAdd_nodup _ _ _ _ (setAdd_nodup List.nodup_nil)

/-- C2: `compile_options.txt` has one `+incdir+<dir>` line per element of the
include-directory set, sorted lexicographically with no duplicates; the set
(paths relative to the job path) consists of `projectPath/src` when it exists,
every directory under `src` directly containing a file with an include
extension, and `projectPath/include` when it exists. -/
theorem C2_compile_options (fs : Entry) (pp jp : List String) (ctime : Nat)
    (jobFiles0 : List String) :
    (generate_filelist fs pp jp ctime jobFiles0).compile_options =
      (pysorted (generate_filelist fs pp jp ctime jobFiles0).metadata.include_dirs).map
        (fun d => "+incdir+" ++ d) ∧
    (pysorted (generate_filelist fs pp jp ctime jobFiles0).metadata.include_dirs).Nodup ∧
    List.Sorted (· ≤ ·)
      (pysorted (generate_filelist fs pp jp ctime jobFiles0).metadata.include_dirs) ∧
    ∀ d, d ∈ pysorted (generate_filelist fs pp jp ctime jobFiles0).metadata.include_dirs ↔
      ((fs.find (pp ++ ["src"])).isSome ∧ d = relpath (pp ++ ["src"]) jp) ∨
      (∃ e, fs.find (pp ++ ["src"]) = some e ∧
        ∃ fr, fr ∈ e.dirsUnder (pp ++ ["src"]) ∧
          fr.2.any (fun f => include_extensions.any (fun ext => endswith f ext)) = true ∧
          d = relpath fr.1 jp) ∨
      ((fs.find (pp ++ ["include"])).isSome ∧ d = relpath (pp ++ ["include"]) jp) := by
  refine ⟨rfl, ?_, ?_, ?_⟩
  · rw [pysorted]
    exact ((List.perm_insertionSort _ _).nodup_iff).mpr
      (include_dirs_nodup fs pp jp ctime jobFiles0)
  · rw [pysorted]
    exact List.sorted_insertionSort _ _
  · intro d
    rw [pysorted, List.mem_insertionSort]
    exact mem_include_dirs fs pp jp ctime jobFiles0 d

/-- C3: `total_files` equals the length of `src_files` plus the length of
`tb_files`; include files never enter the count, so two filesystems agreeing
on `src` and `tb` (but possibly differing on `include`) give the same total. -/
theorem C3_total_files (fs fs2 : Entry) (pp jp : List String) (ctime ctime2 : Nat)
    (jobFiles0 jobFiles02 : List String)
    (hsrc : fs.find (pp ++ ["src"]) = fs2.find (pp ++ ["src"]))
    (htb : fs.find (pp ++ ["tb"]) = fs2.find (pp ++ ["tb"])) :
    (generate_filelist fs pp jp ctime jobFiles0).metadata.total_files =
      (generate_filelist fs pp jp ctime jobFiles0).metadata.src_files.length +
        (generate_filelist fs pp jp ctime jobFiles0).metadata.tb_files.length ∧
    (generate_filelist fs pp jp ctime jobFiles0).metadata.total_files =
      (generate_filelist fs2 pp jp ctime2 jobFiles02).metadata.total_files := by
  refine ⟨rfl, ?_⟩
  simp only [generate_filelist, scan_directory]
  rw [hsrc, htb]

/-- Witness for C3: the example project with and without its `include`
directory (their `include_files` differ, the totals agree). -/
theorem C3_total_files_witness :
    (generate_filelist demoFS ["proj"] ["job"] 0 []).metadata.total_files =
      (generate_filelist demoFS ["proj"] ["job"] 0 []).metadata.src_files.length +
        (generate_filelist demoFS ["proj"] ["job"] 0 []).metadata.tb_files.length ∧
    (generate_filelist demoFS ["proj"] ["job"] 0 []).metadata.total_files =
      (generate_filelist demoFSNoInc ["proj"] ["job"] 1 []).metadata.total_files :=
  C3_total_files demoFS demoFSNoInc ["proj"] ["job"] 0 1 [] [] rfl rfl

/-- C4: a second run on the unchanged project with the same job directory
(whatever files the first run left there, and whatever the new timestamp is)
writes identical `filelist.f` and `compile_options.txt` contents. -/
theorem C4_idempotent (fs : Entry) (pp jp : List String) (ctime1 ctime2 : Nat)
    (jobFiles0 : List String) :
    (generate_filelist fs pp jp ctime2
        (generate_filelist fs pp jp ctime1 jobFiles0).jobFilesAfter).filelist =
      (generate_filelist fs pp jp ctime1 jobFiles0).filelist ∧
    (generate_filelist fs pp jp ctime2
        (generate_filelist fs pp jp ctime1 jobFiles0).jobFilesAfter).compile_options =
      (generate_filelist fs pp jp ctime1 jobFiles0).compile_options :=
  ⟨rfl, rfl⟩

/-- C5: a scan of a non-existent directory returns the empty list rather than
failing; with a missing `tb/` the run still produces output, `tb_files` is
empty and `filelist.f` holds only the sorted `src` entries. -/
theorem C5_missing_dir (fs : Entry) (directory : List String) (exts : List String)
    (relative_to : Option (List String)) (pp jp : List String) (ctime : Nat)
    (jobFiles0 : List String)
    (hdir : fs.find directory = none) (htb : fs.find (pp ++ ["tb"]) = none) :
    scan_directory fs directory exts relative_to = [] ∧
    (generate_filelist fs pp jp ctime jobFiles0).metadata.tb_files = [] ∧
    (generate_filelist fs pp jp ctime jobFiles0).filelist =
      pysorted (generate_filelist fs pp jp ctime jobFiles0).metadata.src_files := by
  refine ⟨?_, ?_, ?_⟩
  · unfold scan_directory
    rw [hdir]
  · simp only [generate_filelist]
    rw [htb]
    simp
  · simp only [generate_filelist]
    rw [htb]
    simp [pysorted]

/-- Witness for C5 on a project that has only a `src` directory. -/
theorem C5_missing_dir_witness :
    scan_directory demoFSSrcOnly ["proj", "tb"] verilog_extensions (some ["job"]) = [] ∧
    (generate_filelist demoFSSrcOnly ["proj"] ["job"] 0 []).metadata.tb_files = [] ∧
    (generate_filelist demoFSSrcOnly ["proj"] ["job"] 0 []).filelist =
      pysorted (generate_filelist demoFSSrcOnly ["proj"] ["job"] 0 []).metadata.src_files :=
  C5_missing_dir demoFSSrcOnly ["proj", "tb"] verilog_extensions (some ["job"])
    ["proj"] ["job"] 0 [] rfl rfl

/-- C6: when `projectPath` does not exist the process reports an error and
exits with status 1, creating no output files and no job directory. -/
theorem C6_missing_project (fs : Entry) (argv : List String)
    (parsePath : String → List String) (ctime : Nat) (jobFiles0 : List String)
    (hlen : argv.length = 3)
    (hmiss : fs.find (parsePath (argv.getD 1 "")) = none) :
    (pymain fs argv parsePath ctime jobFiles0).exitCode = 1 ∧
    (pymain fs argv parsePath ctime jobFiles0).printedError = true ∧
    (pymain fs argv parsePath ctime jobFiles0).outputs = none ∧
    (pymain fs argv parsePath ctime jobFiles0).jobDirCreated = false := by
  obtain ⟨a, b, c, rfl⟩ := List.length_eq_three.mp hlen
  simp only [List.getD_cons_succ, List.getD_cons_zero] at hmiss
  simp [pymain, hmiss]

/-- Witness for C6: invoking the tool on a project path that does not exist. -/
theorem C6_missing_project_witness :
    (pymain demoFS ["generate_filelist.py", "ghost", "job"] (fun s => [s]) 0 []).exitCode = 1 ∧
    (pymain demoFS ["generate_filelist.py", "ghost", "job"] (fun s => [s]) 0 []).printedError = true ∧
    (pymain demoFS ["generate_filelist.py", "ghost", "job"] (fun s => [s]) 0 []).outputs = none ∧
    (pymain demoFS ["generate_filelist.py", "ghost", "job"] (fun s => [s]) 0 []).jobDirCreated = false :=
  C6_missing_project demoFS ["generate_filelist.py", "ghost", "job"] (fun s => [s]) 0 []
    rfl rfl

/-- C7: with an argument count other than two positional arguments (that is,
`sys.argv` of length other than three) the process prints the usage text,
exits with status 1 and touches nothing. -/
theorem C7_usage (fs : Entry) (argv : List String) (parsePath : String → List String)
    (ctime : Nat) (jobFiles0 : List String) (hlen : argv.length ≠ 3) :
    (pymain fs argv parsePath ctime jobFiles0).exitCode = 1 ∧
    (pymain fs argv parsePath ctime jobFiles0).printedUsage = true ∧
    (pymain fs argv parsePath ctime jobFiles0).outputs = none ∧
    (pymain fs argv parsePath ctime jobFiles0).jobDirCreated = false := by
  simp [pymain, hlen]

/-- Witness for C7: invoking the tool with no arguments. -/
theorem C7_usage_witness :
    (pymain demoFS ["generate_filelist.py"] (fun s => [s]) 0 []).exitCode = 1 ∧
    (pymain demoFS ["generate_filelist.py"] (fun s => [s]) 0 []).printedUsage = true ∧
    (pymain demoFS ["generate_filelist.py"] (fun s => [s]) 0 []).outputs = none ∧
    (pymain demoFS ["generate_filelist.py"] (fun s => [s]) 0 []).jobDirCreated = false :=
  C7_usage demoFS ["generate_filelist.py"] (fun s => [s]) 0 [] (by decide)

/-- C8: `generated_at` is the creation timestamp of `filelist.f` exactly when
that file is present in the job directory after the writes (which it always
is, the run having just written it), and would be null otherwise. -/
theorem C8_generated_at (fs : Entry) (pp jp : List String) (ctime : Nat)
    (jobFiles0 : List String) :
    (generate_filelist fs pp jp ctime jobFiles0).metadata.generated_at = some ctime ∧
    (generate_filelist fs pp jp ctime jobFiles0).metadata.generated_at =
      (if "filelist.f" ∈ (generate_filelist fs pp jp ctime jobFiles0).jobFilesAfter
        then some ctime else none) := by
  have h2 : "filelist.f" ∈ setAdd (setAdd jobFiles0 "filelist.f") "compile_options.txt" :=
    mem_setAdd.mpr (Or.inl (mem_setAdd.mpr (Or.inr rfl)))
  have h3 : "filelist.f" ∈
      setAdd (setAdd (setAdd jobFiles0 "filelist.f") "compile_options.txt")
        "project_metadata.json" :=
    mem_setAdd.mpr (Or.inl h2)
  constructor
  · simp only [generate_filelist]
    rw [if_pos h2]
  · simp only [generate_filelist]
    rw [if_pos h2, if_pos h3]

/-- C9: `filelist.f` is written unconditionally before the metadata is built,
so the existence check succeeds on every completed run and `generated_at` is
never null. -/
theorem C9_generated_at_nonnull (fs : Entry) (pp jp : List String) (ctime : Nat)
    (jobFiles0 : List String) :
    "filelist.f" ∈ (generate_filelist fs pp jp ctime jobFiles0).jobFilesAfter ∧
    (generate_filelist fs pp jp ctime jobFiles0).metadata.generated_at ≠ none := by
  have h2 : "filelist.f" ∈ setAdd (setAdd jobFiles0 "filelist.f") "compile_options.txt" :=
    mem_setAdd.mpr (Or.inl (mem_setAdd.mpr (Or.inr rfl)))
  have h3 : "filelist.f" ∈
      setAdd (setAdd (setAdd jobFiles0 "filelist.f") "compile_options.txt")
        "project_metadata.json" :=
    mem_setAdd.mpr (Or.inl h2)
  constructor
  · simp only [generate_filelist]
    exact h3
  · simp only [generate_filelist]
    rw [if_pos h2]
    simp

/-- C10: the number of lines of `filelist.f` equals `total_files`, and the
lines of `filelist.f` are exactly the members of `src_files` and `tb_files`. -/
theorem C10_filelist_metadata_agree (fs : Entry) (pp jp : List String) (ctime : Nat)
    (jobFiles0 : List String) :
    (generate_filelist fs pp jp ctime jobFiles0).filelist.length =
      (generate_filelist fs pp jp ctime jobFiles0).metadata.total_files ∧
    ∀ s, s ∈ (generate_filelist fs pp jp ctime jobFiles0).filelist ↔
      s ∈ (generate_filelist fs pp jp ctime jobFiles0).metadata.src_files ++
          (generate_filelist fs pp jp ctime jobFiles0).metadata.tb_files := by
  constructor
  · simp only [generate_filelist]
    rw [List.length_append, pysorted, pysorted, List.length_insertionSort,
      List.length_insertionSort]
  · intro s
    simp only [generate_filelist]
    rw [List.mem_append, List.mem_append, pysorted, pysorted,
      List.mem_insertionSort, List.mem_insertionSort]
